import Mathlib

/-!
Shallow embedding of the rules engine of "The Crew" (src/crew/crew.py):
cards and their comparison, decks and dealing, players with hands,
tricks with running-winner resolution, and game-level dealing and
task-selection rotation.  Definitions are translated from the Python
source; theorems check the specification's claims against them.

Conventions of the embedding:
- Python `int` values are `Nat` (all values in play are small positive).
- Python exceptions are the explicit `PyError` type; a fallible source
  operation returns `Except PyError _`.
- Python's insertion-ordered `dict[Player, Card]` is an association list
  `List (Nat × Card)` (players are identified by their seat index);
  assignment to an existing key overwrites the value in place.
- `list.pop()` removes from the end of the list; `list.remove` removes
  the first occurrence equal to the argument.
-/

/-- The five suits, from `class Suit(enum.StrEnum)` in the source.
In the source each member's value is its capitalized name string. -/
inductive Suit where
  | rocket
  | blue
  | green
  | pink
  | yellow
deriving DecidableEq, Repr

/-- The string value of each `Suit` member, as in the source
(`ROCKET = "Rocket"`, etc.), given as its list of characters so that
comparisons compute. -/
def Suit.pyStr : Suit → List Char
  | Suit.rocket => ['R', 'o', 'c', 'k', 'e', 't']
  | Suit.blue => ['B', 'l', 'u', 'e']
  | Suit.green => ['G', 'r', 'e', 'e', 'n']
  | Suit.pink => ['P', 'i', 'n', 'k']
  | Suit.yellow => ['Y', 'e', 'l', 'l', 'o', 'w']

/-- CPython's `str.__lt__`: lexicographic comparison by code point.
`Suit` is a `StrEnum`, so `suit > suit` in the source is this string
comparison (flipped). -/
def pyStrLt : List Char → List Char → Bool
  | [], [] => false
  | [], _ :: _ => true
  | _ :: _, [] => false
  | a :: as, b :: bs =>
    if a.toNat < b.toNat then true
    else if b.toNat < a.toNat then false
    else pyStrLt as bs

/-- A card: `@dataclasses.dataclass class Card` with a value and a suit.
Equality is structural, as for the Python dataclass.  (The source's
`__post_init__` coerces ints/strings into the enums; the embedding works
directly with the enums.) -/
structure Card where
  value : Nat
  suit : Suit
deriving DecidableEq, Repr

/-- `Card.is_rocket` from the source. -/
def Card.is_rocket (c : Card) : Bool := c.suit = Suit.rocket

/-- `Card.__gt__` from the source:
same suit → compare values; else a Rocket beats a non-Rocket; else fall
through to `self.suit > other.suit`, which on the `StrEnum` is string
comparison of the suit names. -/
def Card.gt (a b : Card) : Bool :=
  if a.suit = b.suit then a.value > b.value
  else if a.suit = Suit.rocket then true
  else if b.suit = Suit.rocket then false
  else pyStrLt b.suit.pyStr a.suit.pyStr

/-- Python's two-argument `max(a, b)` under `Card.__gt__`: starts with
`a` and replaces it by `b` only if `b > a` (so `a` wins ties).  Used in
`Trick.play_card` as `max(card, self.highest_card)`. -/
def pyMaxCard (a b : Card) : Card :=
  if Card.gt b a then b else a

/-- Python `a < b` on cards: `Card` defines only `__gt__`, so CPython
evaluates `a < b` via the reflected operation `b.__gt__(a)`. -/
def Card.pyLt (a b : Card) : Bool := Card.gt b a

/-- Stable insertion of a card into a sorted list: `c` is placed before
the first element that is not strictly below it, so a card inserted for
an earlier position keeps its place among equals. -/
def insertCard (c : Card) : List Card → List Card
  | [] => [c]
  | x :: xs => if Card.pyLt x c then x :: insertCard c xs else c :: x :: xs

/-- `Deck.sort` / `Player.sort_hand`: `list.sort()` is a stable
ascending sort driven by `<` comparisons (Timsort).  A stable sort's
output is uniquely determined by the comparator, so the stable insertion
sort below is extensionally the same function. -/
def pySortCards : List Card → List Card
  | [] => []
  | c :: cs => insertCard c (pySortCards cs)

/-- Equality of `Except` results is decidable componentwise. -/
instance {ε α : Type} [DecidableEq ε] [DecidableEq α] : DecidableEq (Except ε α) :=
  fun a b =>
    match a, b with
    | Except.ok x, Except.ok y =>
      if h : x = y then isTrue (by rw [h]) else isFalse (by intro hh; cases hh; exact h rfl)
    | Except.error e, Except.error f =>
      if h : e = f then isTrue (by rw [h]) else isFalse (by intro hh; cases hh; exact h rfl)
    | Except.ok _, Except.error _ => isFalse (by intro h; cases h)
    | Except.error _, Except.ok _ => isFalse (by intro h; cases h)

/-- The Python exception classes that the embedded operations can
surface, plus the error classes that the specification's error taxonomy
names (`InsufficientCardsError`, `DuplicatePlayError`,
`CardNotInHandError`): the latter exist so that claims about them can be
stated, but only `PlayerNotInGameError` of the custom classes exists in
the source. -/
inductive PyError where
  | indexError
  | valueError
  | attributeError
  | zeroDivisionError
  | playerNotInGameError
  | insufficientCardsError
  | duplicatePlayError
  | cardNotInHandError
deriving DecidableEq, Repr

/-- The nine card values of `class Value(enum.IntEnum)`. -/
def valueList : List Nat := [1, 2, 3, 4, 5, 6, 7, 8, 9]

/-- `Deck.blue_cards`. -/
def blue_cards : List Card := valueList.map (fun v => ⟨v, Suit.blue⟩)

/-- `Deck.green_cards`. -/
def green_cards : List Card := valueList.map (fun v => ⟨v, Suit.green⟩)

/-- `Deck.pink_cards`. -/
def pink_cards : List Card := valueList.map (fun v => ⟨v, Suit.pink⟩)

/-- `Deck.yellow_cards`. -/
def yellow_cards : List Card := valueList.map (fun v => ⟨v, Suit.yellow⟩)

/-- `Deck.rocket_cards`: Rocket values 1 through 4. -/
def rocket_cards : List Card := [1, 2, 3, 4].map (fun v => ⟨v, Suit.rocket⟩)

/-- The 40 cards a fresh `CardDeck` holds before shuffling. A shuffled
deck is modelled as any permutation of this list. -/
def cardDeckCards : List Card :=
  blue_cards ++ green_cards ++ pink_cards ++ yellow_cards ++ rocket_cards

/-- `CardDeck.num_cards`, the class constant 40 used by
`Game.deal_cards`. -/
def CardDeck.num_cards : Nat := 40

/-- The Rocket card of value 4, whose holder is the Commander. -/
def rocketFour : Card := ⟨4, Suit.rocket⟩

/-- `Deck.deal_cards`: `[self.cards.pop() for _ in range(num_cards)]`.
Each `pop()` removes the last card; popping an empty list raises
`IndexError`.  Returns the dealt cards (last card first) and the
remaining deck. -/
def dealCards : List Card → Nat → Except PyError (List Card × List Card)
  | cards, 0 => Except.ok ([], cards)
  | cards, n + 1 =>
    match cards.getLast? with
    | none => Except.error PyError.indexError
    | some c =>
      match dealCards cards.dropLast n with
      | Except.ok (dealt, rest) => Except.ok (c :: dealt, rest)
      | Except.error e => Except.error e

/-- Assignment `self.cards[player] = card` into Python's
insertion-ordered dict: if the key is present its value is overwritten
in place, otherwise the pair is appended. -/
def dictInsert (d : List (Nat × Card)) (k : Nat) (v : Card) : List (Nat × Card) :=
  if d.any (fun p => p.1 == k) then
    d.map (fun p => if p.1 = k then (k, v) else p)
  else d ++ [(k, v)]

/-- `class Trick`: the played cards (insertion-ordered player-to-card
map), the card currently winning, and the suit led. -/
structure Trick where
  cards : List (Nat × Card)
  highest_card : Option Card
  starting_suit : Option Suit
deriving DecidableEq, Repr

/-- `Trick.__init__`: a fresh, empty trick. -/
def Trick.new : Trick := ⟨[], none, none⟩

/-- `Trick.play_card` from the source, verbatim in structure:
store the card under the player; if this is the only entry, set the
starting suit and the highest card; otherwise, if the highest card is a
Rocket, only another Rocket can replace it (via `max`); otherwise only a
card of the highest card's own suit can replace it (via `max`).
Reading `self.highest_card.suit` when `highest_card` is `None` would
raise `AttributeError`; that branch is unreachable from a fresh trick. -/
def Trick.play_card (t : Trick) (player : Nat) (card : Card) : Except PyError Trick :=
  let cards := dictInsert t.cards player card
  if cards.length = 1 then
    Except.ok ⟨cards, some card, some card.suit⟩
  else
    match t.highest_card with
    | none => Except.error PyError.attributeError
    | some hc =>
      if hc.suit = Suit.rocket then
        if card.suit = Suit.rocket then
          Except.ok ⟨cards, some (pyMaxCard card hc), t.starting_suit⟩
        else
          Except.ok ⟨cards, t.highest_card, t.starting_suit⟩
      else
        if card.suit = hc.suit then
          Except.ok ⟨cards, some (pyMaxCard card hc), t.starting_suit⟩
        else
          Except.ok ⟨cards, t.highest_card, t.starting_suit⟩

/-- `Trick.winning_player`: the first player whose card equals the
highest card (`None` when nothing matches). -/
def Trick.winning_player (t : Trick) : Option Nat :=
  (t.cards.find? (fun p => t.highest_card == some p.2)).map Prod.fst

/-- `Trick.winning_card`. -/
def Trick.winning_card (t : Trick) : Option Card := t.highest_card

/-- A sequence of `Trick.play_card` calls, propagating any exception. -/
def Trick.playSeq (t : Trick) : List (Nat × Card) → Except PyError Trick
  | [] => Except.ok t
  | (p, c) :: rest =>
    match Trick.play_card t p c with
    | Except.ok t' => Trick.playSeq t' rest
    | Except.error e => Except.error e

/-- `class Player`.  In the source, `draw` executes
`self.starting_hand = cards; self.hand = self.starting_hand`, so
`starting_hand` and `hand` are two names for ONE list object, and every
in-place mutation of the hand (sorting, `remove` on play) is a mutation
of the starting hand as well.  The embedding therefore keeps the single
shared list in `cardsList`, and `Player.hand` / `Player.starting_hand`
both read it.  `inGame` models whether `self.game` is set. -/
structure Player where
  cardsList : List Card
  inGame : Bool
  tasks : List Card
deriving DecidableEq, Repr

/-- `Player.hand`: the live hand. -/
def Player.hand (p : Player) : List Card := p.cardsList

/-- `Player.starting_hand`: in the source this aliases the same list
object as the live hand (see `Player`). -/
def Player.starting_hand (p : Player) : List Card := p.cardsList

/-- `Player.__init__` with a game attached (as `Game.add_new_players`
creates players). -/
def Player.new : Player := ⟨[], true, []⟩

/-- `Player.is_commander`: the starting hand contains the Rocket 4. -/
def Player.is_commander (p : Player) : Bool :=
  p.starting_hand.contains rocketFour

/-- `Player.num_cards`. -/
def Player.num_cards (p : Player) : Nat := p.hand.length

/-- `Player.draw`: assigns starting hand and hand (one shared list) and
optionally sorts it in place. -/
def Player.draw (p : Player) (cards : List Card) (sort : Bool) : Player :=
  if sort then { p with cardsList := pySortCards cards }
  else { p with cardsList := cards }

/-- `Player.play_card`: raise `PlayerNotInGameError` when no game is
attached; `self.hand.remove(card)` removes the first occurrence of the
card from the (shared) hand list, raising `ValueError` when absent; then
the card is forwarded to the game's current trick.  `pid` is this
player's identity (seat) used as the trick's dict key. -/
def Player.play_card (p : Player) (pid : Nat) (trick : Trick) (card : Card) :
    Except PyError (Player × Trick) :=
  if p.inGame = false then Except.error PyError.playerNotInGameError
  else if p.hand.contains card then
    match Trick.play_card trick pid card with
    | Except.ok t' => Except.ok ({ p with cardsList := p.cardsList.erase card }, t')
    | Except.error e => Except.error e
  else Except.error PyError.valueError

/-- The loop body of `Game.deal_cards`: each player in seating order
draws `k` cards dealt from the shared deck (`sort` defaults to true in
`Player.draw`). -/
def dealToPlayers (k : Nat) : List Card → List Player → Except PyError (List Player × List Card)
  | deck, [] => Except.ok ([], deck)
  | deck, p :: ps =>
    match dealCards deck k with
    | Except.ok (dealt, rest) =>
      match dealToPlayers k rest ps with
      | Except.ok (ps', deckEnd) => Except.ok (Player.draw p dealt true :: ps', deckEnd)
      | Except.error e => Except.error e
    | Except.error e => Except.error e

/-- `Game.deal_cards`: `num_cards_per_player = CardDeck.num_cards //
self.num_players` (the class constant 40, not the live deck size), then
every player draws that many cards.  A game with zero players would
divide by zero. -/
def Game.deal_cards (deck : List Card) (players : List Player) (numPlayers : Nat) :
    Except PyError (List Player × List Card) :=
  if numPlayers = 0 then Except.error PyError.zeroDivisionError
  else dealToPlayers (CardDeck.num_cards / numPlayers) deck players

/-- `Game.commander`: the first player in seating order whose
`is_commander` holds (`None` when there is none). -/
def Game.commander (players : List Player) : Option Player :=
  players.find? (fun p => p.is_commander)

/-- `Game.assign_task_cards`: starting from the Commander's seat index,
visit seats in increasing order modulo the player count while the
unchosen pool is nonempty; each visit invokes the interactive
`select_task_card`, whose contract is to remove exactly one card (at an
index it validates) from the pool.  `chooser` models that collaborator
by naming the index to remove; the `min` realizes the collaborator's
contract that the index is in range.  Returns the list of seats visited
in order and the final pool. -/
def assignTaskCards (n : Nat) (chooser : List Card → Nat) :
    Nat → List Card → List Nat × List Card
  | _, [] => ([], [])
  | s, c :: rest =>
    let pool := c :: rest
    let next := assignTaskCards n chooser ((s + 1) % n)
      (pool.eraseIdx (min (chooser pool) (pool.length - 1)))
    (s :: next.1, next.2)
termination_by _ pool => pool.length
decreasing_by
  have h : min (chooser (c :: rest)) ((c :: rest).length - 1) < (c :: rest).length :=
    Nat.lt_of_le_of_lt (Nat.min_le_right _ _) (by simp)
  rw [List.length_eraseIdx_of_lt h]
  simp

/-- The position of each suit in alphabetical order of the suit name
strings ("Blue" < "Green" < "Pink" < "Rocket" < "Yellow").  This is a
specification-side rank used to characterise the fallback branch of
`Card.__gt__` (which compares the `StrEnum` name strings). -/
def suitNameRank : Suit → Nat
  | Suit.blue => 0
  | Suit.green => 1
  | Suit.pink => 2
  | Suit.rocket => 3
  | Suit.yellow => 4

/-- The running invariant of a trick in progress with led suit `s0`:
some card is recorded as highest, the starting suit is `s0`, the highest
card's suit is `s0`, the highest card is among the played cards, and at
least one card has been played. -/
def TrickInv (t : Trick) (s0 : Suit) : Prop :=
  ∃ hc, t.highest_card = some hc ∧ t.starting_suit = some s0 ∧
    hc.suit = s0 ∧ hc ∈ t.cards.map Prod.snd ∧ t.cards ≠ []

/-! ## Helper lemmas -/

theorem insertCard_perm (c : Card) (l : List Card) :
    List.Perm (insertCard c l) (c :: l) := by
  induction l with
  | nil => simp [insertCard]
  | cons x xs ih =>
    by_cases h : Card.pyLt x c = true
    · simp only [insertCard, h, if_true]
      exact (List.Perm.cons x ih).trans (List.Perm.swap c x xs)
    · simp [insertCard, h]

theorem pySortCards_perm (l : List Card) : List.Perm (pySortCards l) l := by
  induction l with
  | nil => simp [pySortCards]
  | cons c cs ih =>
    exact (insertCard_perm c (pySortCards cs)).trans (List.Perm.cons c ih)

theorem dealCards_spec (n : Nat) :
    ∀ cards : List Card,
      (cards.length < n → dealCards cards n = Except.error PyError.indexError) ∧
      (n ≤ cards.length →
        dealCards cards n =
          Except.ok ((cards.drop (cards.length - n)).reverse,
            cards.take (cards.length - n))) := by
  induction n with
  | zero =>
    intro cards
    refine ⟨fun h => absurd h (Nat.not_lt_zero _), fun _ => ?_⟩
    simp [dealCards]
  | succ m ih =>
    intro cards
    match hc : cards.getLast? with
    | none =>
      rw [List.getLast?_eq_none_iff] at hc
      subst hc
      refine ⟨fun _ => by simp [dealCards], fun h => ?_⟩
      exact absurd h (by simp)
    | some c =>
      have hne : cards ≠ [] := by
        intro h; subst h; simp at hc
      have hdecomp : cards.dropLast ++ [c] = cards := by
        have h1 := List.dropLast_append_getLast hne
        have h2 : cards.getLast hne = c := by
          have h3 := List.getLast?_eq_getLast cards hne
          rw [h3] at hc
          exact Option.some_inj.mp hc
        rw [h2] at h1
        exact h1
      obtain ⟨l, rfl⟩ : ∃ l, cards = l ++ [c] := ⟨cards.dropLast, hdecomp.symm⟩
      have hdl : (l ++ [c]).dropLast = l := List.dropLast_concat
      have hlen : (l ++ [c]).length = l.length + 1 := by simp
      constructor
      · intro hlt
        have hlt' : l.length < m := by omega
        simp only [dealCards, hc, hdl, (ih l).1 hlt']
      · intro hle
        have hle' : m ≤ l.length := by omega
        simp only [dealCards, hc, hdl, (ih l).2 hle']
        have harith : (l ++ [c]).length - (m + 1) = l.length - m := by omega
        have hsub : l.length - m ≤ l.length := Nat.sub_le _ _
        rw [harith, List.drop_append_of_le_length hsub, List.take_append_of_le_length hsub]
        simp

theorem dealToPlayers_spec (k : Nat) :
    ∀ (players : List Player) (deck : List Card),
      players.length * k ≤ deck.length →
      ∃ ps' d', dealToPlayers k deck players = Except.ok (ps', d') ∧
        ps'.length = players.length ∧
        d' = deck.take (deck.length - players.length * k) ∧
        (∀ q ∈ ps', q.cardsList.length = k) ∧
        List.Perm ((ps'.map (fun q => q.cardsList)).flatten)
          (deck.drop (deck.length - players.length * k)) := by
  intro players
  induction players with
  | nil =>
    intro deck _
    refine ⟨[], deck, by simp [dealToPlayers], by simp, by simp, by simp, by simp⟩
  | cons p ps ih =>
    intro deck hle
    have hk : k ≤ deck.length := by
      have h1 : k ≤ (ps.length + 1) * k := by
        calc k = 1 * k := (Nat.one_mul k).symm
        _ ≤ (ps.length + 1) * k := Nat.mul_le_mul_right k (by omega)
      calc k ≤ (ps.length + 1) * k := h1
      _ = (p :: ps).length * k := by simp
      _ ≤ deck.length := hle
    have hdeal := (dealCards_spec k deck).2 hk
    have hrest_len : (deck.take (deck.length - k)).length = deck.length - k := by
      simp [Nat.sub_le]
    have hle' : ps.length * k ≤ (deck.take (deck.length - k)).length := by
      rw [hrest_len]
      have : (p :: ps).length * k = ps.length * k + k := by simp [Nat.succ_mul]
      omega
    obtain ⟨ps', d', hdtp, hlen', hd', hhands, hperm⟩ := ih (deck.take (deck.length - k)) hle'
    refine ⟨Player.draw p ((deck.drop (deck.length - k)).reverse) true :: ps', d', ?_, ?_, ?_, ?_, ?_⟩
    · simp only [dealToPlayers, hdeal, hdtp]
    · simp [hlen']
    · rw [hd', List.take_take, hrest_len]
      congr 1
      have : (p :: ps).length * k = ps.length * k + k := by simp [Nat.succ_mul]
      omega
    · intro q hq
      rcases List.mem_cons.mp hq with hq | hq
      · subst hq
        show (pySortCards ((deck.drop (deck.length - k)).reverse)).length = k
        rw [(pySortCards_perm ((deck.drop (deck.length - k)).reverse)).length_eq]
        simp only [List.length_reverse, List.length_drop]
        omega
      · exact hhands q hq
    · simp only [List.map_cons, List.flatten_cons]
      have hsort : List.Perm (Player.draw p ((deck.drop (deck.length - k)).reverse) true).cardsList
          (deck.drop (deck.length - k)) := by
        show List.Perm (pySortCards ((deck.drop (deck.length - k)).reverse)) _
        exact (pySortCards_perm _).trans (by simp)
      have hstep : List.Perm
          ((Player.draw p ((deck.drop (deck.length - k)).reverse) true).cardsList ++
            (ps'.map (fun q => q.cardsList)).flatten)
          (deck.drop (deck.length - k) ++ (deck.take (deck.length - k)).drop
            ((deck.take (deck.length - k)).length - ps.length * k)) :=
        List.Perm.append hsort hperm
      refine hstep.trans ?_
      rw [hrest_len]
      have harith : deck.length - (p :: ps).length * k ≤ deck.length - k := by
        have h5 : (p :: ps).length * k = ps.length * k + k := by simp [Nat.succ_mul]
        omega
      have hsplit : (deck.take (deck.length - k) ++ deck.drop (deck.length - k)).drop
            (deck.length - (p :: ps).length * k) =
          (deck.take (deck.length - k)).drop (deck.length - (p :: ps).length * k) ++
            deck.drop (deck.length - k) :=
        List.drop_append_of_le_length
          (show deck.length - (p :: ps).length * k ≤ (deck.take (deck.length - k)).length by
            rw [hrest_len]; exact harith)
      rw [List.take_append_drop] at hsplit
      rw [hsplit]
      have harith2 : deck.length - k - ps.length * k = deck.length - (p :: ps).length * k := by
        have h5 : (p :: ps).length * k = ps.length * k + k := by simp [Nat.succ_mul]
        omega
      rw [harith2]
      exact List.perm_append_comm

theorem sum_eq_zero_countP (l : List Nat) (h : l.sum = 0) :
    l.countP (fun x => x != 0) = 0 := by
  induction l with
  | nil => simp
  | cons x xs ih =>
    simp only [List.sum_cons] at h
    have hx : x = 0 := by omega
    have hxs : xs.sum = 0 := by omega
    subst hx
    simp [List.countP_cons, ih hxs]

theorem sum_eq_one_countP (l : List Nat) (h : l.sum = 1) :
    l.countP (fun x => x != 0) = 1 := by
  induction l with
  | nil => simp at h
  | cons x xs ih =>
    simp only [List.sum_cons] at h
    by_cases hx : x = 0
    · subst hx
      simp only [Nat.zero_add] at h
      simp [List.countP_cons, ih h]
    · have hx1 : x = 1 := by omega
      have hxs : xs.sum = 0 := by omega
      subst hx1
      simp [List.countP_cons, sum_eq_zero_countP xs hxs]

/-! ## Claim C3: suit fallback ordering -/

/-- C3 counterexample: the claim says every Blue card compares greater
than every Green card, but `Card.__gt__`'s fallback compares the suit
NAME STRINGS ("Blue" < "Green" alphabetically), so Blue 9 > Green 1 is
false. -/
theorem c3_counterexample :
    Card.gt ⟨9, Suit.blue⟩ ⟨1, Suit.green⟩ = false := by decide

/-- C3 (amended): for non-Rocket cards of different suits, `a > b`
follows the alphabetical order of the suit name strings, i.e.
Yellow > Pink > Green > Blue (regardless of value), and the comparison
is a total function (it cannot crash). -/
theorem card_gt_suit_fallback (a b : Card)
    (ha : a.suit ≠ Suit.rocket) (hb : b.suit ≠ Suit.rocket)
    (hab : a.suit ≠ b.suit) :
    Card.gt a b = decide (suitNameRank b.suit < suitNameRank a.suit) := by
  obtain ⟨va, sa⟩ := a
  obtain ⟨vb, sb⟩ := b
  cases sa <;> cases sb <;>
    simp_all [Card.gt, suitNameRank, pyStrLt, Suit.pyStr]

/-- C3 witness: the amended theorem applied at Yellow 1 vs Pink 9. -/
theorem card_gt_suit_fallback_witness :
    Card.gt ⟨1, Suit.yellow⟩ ⟨9, Suit.pink⟩ =
      decide (suitNameRank Suit.pink < suitNameRank Suit.yellow) :=
  card_gt_suit_fallback ⟨1, Suit.yellow⟩ ⟨9, Suit.pink⟩
    (by decide) (by decide) (by decide)

/-! ## Claim C4: dealing more cards than remain -/

/-- C4 counterexample: dealing 3 cards from a 2-card deck surfaces the
built-in `IndexError` from popping an empty list, not the
`InsufficientCardsError` the claim names (no such class exists in the
source). -/
theorem c4_counterexample :
    dealCards [⟨1, Suit.blue⟩, ⟨2, Suit.blue⟩] 3 = Except.error PyError.indexError ∧
      (Except.error PyError.indexError : Except PyError (List Card × List Card)) ≠
        Except.error PyError.insufficientCardsError := by
  constructor
  · decide
  · decide

/-- C4 (amended): for every deck and every `n`, dealing `n` cards raises
the built-in `IndexError` (from `pop` on an empty list) if `n` exceeds
the number of cards remaining; otherwise it removes and returns exactly
`n` cards taken from the tail end of the deck's sequence (last card
first), leaving the other cards in place. -/
theorem deal_cards_spec_or_error (cards : List Card) (n : Nat) :
    (cards.length < n → dealCards cards n = Except.error PyError.indexError) ∧
      (n ≤ cards.length →
        dealCards cards n =
          Except.ok ((cards.drop (cards.length - n)).reverse,
            cards.take (cards.length - n))) :=
  dealCards_spec n cards

/-- C4 witness: dealing 2 from a 3-card deck returns the last two cards
(last first) and leaves the first card. -/
theorem deal_cards_spec_or_error_witness :
    dealCards [⟨1, Suit.blue⟩, ⟨2, Suit.blue⟩, ⟨3, Suit.blue⟩] 2 =
      Except.ok ([⟨3, Suit.blue⟩, ⟨2, Suit.blue⟩], [⟨1, Suit.blue⟩]) := by
  have h := (deal_cards_spec_or_error [⟨1, Suit.blue⟩, ⟨2, Suit.blue⟩, ⟨3, Suit.blue⟩] 2).2
    (by decide)
  rw [h]
  rfl

/-! ## Claim C5: duplicate play in a trick -/

/-- C5 counterexample: a second `play_card` by the same player does not
raise `DuplicatePlayError` (no such class exists in the source); the
dict assignment silently replaces that player's card — here player 0's
Blue 3 is replaced by Green 5 and the trick is reset to it. -/
theorem c5_counterexample :
    Trick.playSeq Trick.new [(0, ⟨3, Suit.blue⟩), (0, ⟨5, Suit.green⟩)] =
      Except.ok ⟨[(0, ⟨5, Suit.green⟩)], some ⟨5, Suit.green⟩, some Suit.green⟩ ∧
      Trick.playSeq Trick.new [(0, ⟨3, Suit.blue⟩), (0, ⟨5, Suit.green⟩)] ≠
        Except.error PyError.duplicatePlayError := by
  constructor
  · decide
  · decide

/-- C5 (amended): a second `play_card` by a player who has already
played in the trick succeeds and silently overwrites that player's
entry in place; no error is raised.  (When that player is the only one
who has played, the starting suit and highest card are even reset to
the new card.) -/
theorem trick_duplicate_play_overwrites (t : Trick) (pl : Nat) (c : Card)
    (hmem : t.cards.any (fun q => q.1 == pl) = true)
    (hok : t.cards.length = 1 ∨ t.highest_card.isSome = true) :
    ∃ t', Trick.play_card t pl c = Except.ok t' ∧
      t'.cards = t.cards.map (fun q => if q.1 = pl then (pl, c) else q) := by
  have hins : dictInsert t.cards pl c =
      t.cards.map (fun q => if q.1 = pl then (pl, c) else q) := by
    simp only [dictInsert, hmem, if_true]
  have hlen : (dictInsert t.cards pl c).length = t.cards.length := by
    rw [hins, List.length_map]
  by_cases h1 : t.cards.length = 1
  · refine ⟨⟨dictInsert t.cards pl c, some c, some c.suit⟩, ?_, by rw [hins]⟩
    simp only [Trick.play_card, hlen, h1, if_true]
  · have hsome : t.highest_card.isSome = true := by
      rcases hok with h | h
      · exact absurd h h1
      · exact h
    obtain ⟨hc, hhc⟩ := Option.isSome_iff_exists.mp hsome
    by_cases hr : hc.suit = Suit.rocket
    · by_cases hcr : c.suit = Suit.rocket
      · refine ⟨⟨dictInsert t.cards pl c, some (pyMaxCard c hc), t.starting_suit⟩, ?_, by rw [hins]⟩
        simp only [Trick.play_card, hlen, h1, if_false, hhc, hr, hcr, if_true]
      · refine ⟨⟨dictInsert t.cards pl c, t.highest_card, t.starting_suit⟩, ?_, by rw [hins]⟩
        simp only [Trick.play_card, hlen, h1, if_false, hhc, hr, hcr, if_true]
    · by_cases hcs : c.suit = hc.suit
      · refine ⟨⟨dictInsert t.cards pl c, some (pyMaxCard c hc), t.starting_suit⟩, ?_, by rw [hins]⟩
        simp only [Trick.play_card, hlen, h1, if_false, hhc, hr, hcs, if_true]
      · refine ⟨⟨dictInsert t.cards pl c, t.highest_card, t.starting_suit⟩, ?_, by rw [hins]⟩
        simp only [Trick.play_card, hlen, h1, if_false, hhc, hr, hcs, if_true]

/-- C5 witness: overwriting player 0's Blue 3 with Green 5 in a
one-entry trick. -/
theorem trick_duplicate_play_overwrites_witness :
    ∃ t', Trick.play_card ⟨[(0, ⟨3, Suit.blue⟩)], some ⟨3, Suit.blue⟩, some Suit.blue⟩
        0 ⟨5, Suit.green⟩ = Except.ok t' ∧
      t'.cards = [(0, ⟨3, Suit.blue⟩)].map
        (fun q => if q.1 = 0 then (0, (⟨5, Suit.green⟩ : Card)) else q) :=
  trick_duplicate_play_overwrites ⟨[(0, ⟨3, Suit.blue⟩)], some ⟨3, Suit.blue⟩, some Suit.blue⟩
    0 ⟨5, Suit.green⟩ (by decide) (Or.inl (by decide))

/-! ## Claim C6: Player.play_card error behaviour -/

/-- C6 counterexample: playing a card that is not in the hand surfaces
the built-in `ValueError` from `list.remove`, not the
`CardNotInHandError` the claim names (no such class exists in the
source). -/
theorem c6_counterexample :
    Player.play_card ⟨[⟨3, Suit.blue⟩], true, []⟩ 0 Trick.new ⟨5, Suit.green⟩ =
      Except.error PyError.valueError ∧
      (Except.error PyError.valueError : Except PyError (Player × Trick)) ≠
        Except.error PyError.cardNotInHandError := by
  constructor
  · decide
  · decide

/-- C6 (amended): `Player.play_card` raises `PlayerNotInGameError` when
the player has no associated Game (the hand is untouched); when the
player has a Game but the card is not in the live hand it raises the
built-in `ValueError` from `list.remove` (not a silent no-op); and when
the card is in the hand it removes the first occurrence of exactly that
card from the live hand and forwards it to the Game's current Trick. -/
theorem player_play_card_spec (p : Player) (pid : Nat) (trick : Trick) (card : Card) :
    (p.inGame = false →
      Player.play_card p pid trick card = Except.error PyError.playerNotInGameError) ∧
    (p.inGame = true → p.hand.contains card = false →
      Player.play_card p pid trick card = Except.error PyError.valueError) ∧
    (p.inGame = true → p.hand.contains card = true →
      Player.play_card p pid trick card =
        (Trick.play_card trick pid card).map
          (fun t' => ({ p with cardsList := p.cardsList.erase card }, t'))) := by
  refine ⟨?_, ?_, ?_⟩
  · intro hng
    simp only [Player.play_card, hng, if_true]
  · intro hg hnc
    simp only [Player.play_card, hg, hnc]
    rfl
  · intro hg hc
    simp only [Player.play_card, hg, hc]
    cases Trick.play_card trick pid card with
    | ok t' => rfl
    | error e => rfl

/-- C6 witness: an in-game player holding only Blue 3 plays it; the hand
empties and the card lands in the trick. -/
theorem player_play_card_spec_witness :
    Player.play_card ⟨[⟨3, Suit.blue⟩], true, []⟩ 0 Trick.new ⟨3, Suit.blue⟩ =
      Except.ok (⟨[], true, []⟩,
        ⟨[(0, ⟨3, Suit.blue⟩)], some ⟨3, Suit.blue⟩, some Suit.blue⟩) := by
  have h := (player_play_card_spec ⟨[⟨3, Suit.blue⟩], true, []⟩ 0 Trick.new ⟨3, Suit.blue⟩).2.2
    rfl (by decide)
  rw [h]
  rfl

/-! ## Claim C1: a Rocket played over a non-Rocket winner -/

/-- C1: the claim (and the spec's stated rule) says a Rocket played
while the current winner is non-Rocket must overtake it, and that in the
play sequence Blue 3, Green 7, Blue 8, Rocket 1 the winner is the
Rocket 1.  The code's non-Rocket branch only checks `card.suit ==
highest_card.suit`, so the Rocket never overtakes: the final winning
card is Blue 8 and the winning player is seat 2, not the Rocket player
at seat 3.  This theorem evaluates the code at that failing input. -/
theorem c1_rocket_does_not_overtake :
    Trick.playSeq Trick.new
        [(0, ⟨3, Suit.blue⟩), (1, ⟨7, Suit.green⟩), (2, ⟨8, Suit.blue⟩), (3, ⟨1, Suit.rocket⟩)] =
      Except.ok ⟨[(0, ⟨3, Suit.blue⟩), (1, ⟨7, Suit.green⟩), (2, ⟨8, Suit.blue⟩),
          (3, ⟨1, Suit.rocket⟩)], some ⟨8, Suit.blue⟩, some Suit.blue⟩ ∧
      Trick.winning_card ⟨[(0, ⟨3, Suit.blue⟩), (1, ⟨7, Suit.green⟩), (2, ⟨8, Suit.blue⟩),
          (3, ⟨1, Suit.rocket⟩)], some ⟨8, Suit.blue⟩, some Suit.blue⟩ = some ⟨8, Suit.blue⟩ ∧
      Trick.winning_player ⟨[(0, ⟨3, Suit.blue⟩), (1, ⟨7, Suit.green⟩), (2, ⟨8, Suit.blue⟩),
          (3, ⟨1, Suit.rocket⟩)], some ⟨8, Suit.blue⟩, some Suit.blue⟩ = some 2 ∧
      (some (⟨8, Suit.blue⟩ : Card) ≠ some (⟨1, Suit.rocket⟩ : Card) ∧
        Card.gt ⟨1, Suit.rocket⟩ ⟨8, Suit.blue⟩ = true) := by
  refine ⟨by decide, by decide, by decide, by decide, by decide⟩

/-! ## Claim C2: the starting hand is not a frozen snapshot -/

/-- C2: the claim (and the spec) says the starting hand is a frozen
snapshot that `play_card` never mutates, so `is_commander` is stable.
In the source `draw` executes `self.hand = self.starting_hand`, making
both names alias one list, and `play_card`'s `self.hand.remove(card)`
therefore mutates the starting hand too: a player dealt Rocket 4 is the
Commander before playing it and no longer afterwards.  This theorem
evaluates the code at that failing input. -/
theorem c2_starting_hand_mutated :
    Player.is_commander (Player.draw ⟨[], true, []⟩ [⟨4, Suit.rocket⟩, ⟨1, Suit.blue⟩] true) = true ∧
    ∃ p' t', Player.play_card (Player.draw ⟨[], true, []⟩ [⟨4, Suit.rocket⟩, ⟨1, Suit.blue⟩] true)
        0 Trick.new ⟨4, Suit.rocket⟩ = Except.ok (p', t') ∧
      Player.is_commander p' = false ∧
      Player.starting_hand p' ≠
        Player.starting_hand (Player.draw ⟨[], true, []⟩ [⟨4, Suit.rocket⟩, ⟨1, Suit.blue⟩] true) := by
  refine ⟨by decide, ⟨[⟨1, Suit.blue⟩], true, []⟩,
    ⟨[(0, ⟨4, Suit.rocket⟩)], some ⟨4, Suit.rocket⟩, some Suit.rocket⟩, by decide, by decide, by decide⟩

/-! ## Claim C10: trick invariant -/

theorem trick_play_card_append (t : Trick) (s0 : Suit) (p : Nat) (c : Card)
    (hfresh : t.cards.any (fun q => q.1 == p) = false)
    (hinv : TrickInv t s0) :
    ∃ t', Trick.play_card t p c = Except.ok t' ∧
      t'.cards = t.cards ++ [(p, c)] ∧ TrickInv t' s0 := by
  obtain ⟨hc, hh, hs, hsuit, hmem, hne⟩ := hinv
  have hins : dictInsert t.cards p c = t.cards ++ [(p, c)] := by
    simp only [dictInsert, hfresh]
    rfl
  have hlen : ¬ (dictInsert t.cards p c).length = 1 := by
    rw [hins]
    have h0 : 0 < t.cards.length := List.length_pos.mpr hne
    simp only [List.length_append, List.length_cons, List.length_nil]
    omega
  have hmax : ∀ s, c.suit = s → hc.suit = s →
      (pyMaxCard c hc).suit = s0 ∧ pyMaxCard c hc ∈ (t.cards ++ [(p, c)]).map Prod.snd := by
    intro s hcs hhs
    unfold pyMaxCard
    by_cases hgt : Card.gt hc c = true
    · simp only [hgt, if_true]
      exact ⟨hsuit, by rw [List.map_append]; exact List.mem_append_left _ hmem⟩
    · simp only [hgt]
      have hcsuit : c.suit = s0 := by rw [hcs, ← hhs, hsuit]
      refine ⟨by simp [hcsuit], ?_⟩
      rw [List.map_append]
      exact List.mem_append_right _ (by simp)
  by_cases hr : hc.suit = Suit.rocket
  · by_cases hcr : c.suit = Suit.rocket
    · refine ⟨⟨dictInsert t.cards p c, some (pyMaxCard c hc), t.starting_suit⟩, ?_, hins, ?_⟩
      · simp only [Trick.play_card, hlen, if_false, hh, hr, hcr, if_true]
      · obtain ⟨h1, h2⟩ := hmax Suit.rocket hcr hr
        exact ⟨pyMaxCard c hc, rfl, hs, h1, by rwa [hins], by rw [hins]; simp⟩
    · refine ⟨⟨dictInsert t.cards p c, t.highest_card, t.starting_suit⟩, ?_, hins, ?_⟩
      · simp only [Trick.play_card, hlen, if_false, hh, hr, hcr, if_true]
      · exact ⟨hc, hh, hs, hsuit, by rw [hins, List.map_append]; exact List.mem_append_left _ hmem,
          by rw [hins]; simp⟩
  · by_cases hcs : c.suit = hc.suit
    · refine ⟨⟨dictInsert t.cards p c, some (pyMaxCard c hc), t.starting_suit⟩, ?_, hins, ?_⟩
      · simp only [Trick.play_card, hlen, if_false, hh, hr, hcs, if_true]
      · obtain ⟨h1, h2⟩ := hmax hc.suit hcs rfl
        exact ⟨pyMaxCard c hc, rfl, hs, h1, by rwa [hins], by rw [hins]; simp⟩
    · refine ⟨⟨dictInsert t.cards p c, t.highest_card, t.starting_suit⟩, ?_, hins, ?_⟩
      · simp only [Trick.play_card, hlen, if_false, hh, hr, hcs, if_true]
      · exact ⟨hc, hh, hs, hsuit, by rw [hins, List.map_append]; exact List.mem_append_left _ hmem,
          by rw [hins]; simp⟩

theorem trick_playSeq_append (plays : List (Nat × Card)) :
    ∀ (t : Trick) (s0 : Suit),
      TrickInv t s0 →
      (t.cards.map Prod.fst ++ plays.map Prod.fst).Nodup →
      ∃ t', Trick.playSeq t plays = Except.ok t' ∧
        t'.cards = t.cards ++ plays ∧ TrickInv t' s0 := by
  induction plays with
  | nil =>
    intro t s0 hinv _
    exact ⟨t, rfl, by simp, hinv⟩
  | cons pc rest ih =>
    obtain ⟨p, c⟩ := pc
    intro t s0 hinv hnd
    have hdisj : ∀ q ∈ t.cards, q.1 ≠ p := by
      intro q hq
      have hdj := List.disjoint_of_nodup_append hnd
      have hp : p ∈ ((p, c) :: rest).map Prod.fst := by simp
      intro hqp
      exact hdj (List.mem_map_of_mem Prod.fst hq) (hqp ▸ hp)
    have hfresh : t.cards.any (fun q => q.1 == p) = false := by
      rw [List.any_eq_false]
      intro q hq
      simpa using hdisj q hq
    obtain ⟨t1, hplay, hcards1, hinv1⟩ := trick_play_card_append t s0 p c hfresh hinv
    have hnd1 : (t1.cards.map Prod.fst ++ rest.map Prod.fst).Nodup := by
      rw [hcards1, List.map_append, List.append_assoc]
      simpa using hnd
    obtain ⟨t', hseq, hcards', hinv'⟩ := ih t1 s0 hinv1 hnd1
    refine ⟨t', ?_, ?_, hinv'⟩
    · simp only [Trick.playSeq, hplay, hseq]
    · rw [hcards', hcards1, List.append_assoc]
      rfl

/-- C10: for every nonempty sequence of `Trick.play_card` calls by
distinct players on a fresh trick, no error occurs, the trick records
exactly the plays, the highest card is one of the cards played, and the
highest card's suit equals the starting suit, which is the suit of the
first card played. -/
theorem trick_highest_card_invariant (plays : List (Nat × Card)) (hne : plays ≠ [])
    (hnd : (plays.map Prod.fst).Nodup) :
    ∃ t hc, Trick.playSeq Trick.new plays = Except.ok t ∧
      t.cards = plays ∧
      t.highest_card = some hc ∧
      hc ∈ plays.map Prod.snd ∧
      t.starting_suit = some (plays.head hne).2.suit ∧
      hc.suit = (plays.head hne).2.suit := by
  match plays, hne, hnd with
  | (p, c) :: rest, _, hnd =>
    have h0 : Trick.play_card Trick.new p c = Except.ok ⟨[(p, c)], some c, some c.suit⟩ := rfl
    have hinv0 : TrickInv ⟨[(p, c)], some c, some c.suit⟩ c.suit :=
      ⟨c, rfl, rfl, rfl, by simp, by simp⟩
    have hnd0 : (([((p : Nat), c)].map Prod.fst) ++ rest.map Prod.fst).Nodup := by
      simpa using hnd
    obtain ⟨t', hseq, hcards, hinv'⟩ :=
      trick_playSeq_append rest ⟨[(p, c)], some c, some c.suit⟩ c.suit hinv0 hnd0
    obtain ⟨hc, hh, hs, hsuit, hmem, _⟩ := hinv'
    refine ⟨t', hc, ?_, ?_, hh, ?_, hs, hsuit⟩
    · show Trick.playSeq Trick.new ((p, c) :: rest) = Except.ok t'
      simp only [Trick.playSeq, h0]
      exact hseq
    · rw [hcards]
      rfl
    · rw [hcards] at hmem
      simpa using hmem

/-- C10 witness: the no-Rocket scenario Blue 3, Green 7, Blue 8 by
players 0, 1, 2: the trick resolves with a Blue highest card among the
plays. -/
theorem trick_highest_card_invariant_witness :
    ∃ t hc, Trick.playSeq Trick.new
        [(0, ⟨3, Suit.blue⟩), (1, ⟨7, Suit.green⟩), (2, ⟨8, Suit.blue⟩)] = Except.ok t ∧
      t.cards = [(0, ⟨3, Suit.blue⟩), (1, ⟨7, Suit.green⟩), (2, ⟨8, Suit.blue⟩)] ∧
      t.highest_card = some hc ∧
      hc ∈ [(0, (⟨3, Suit.blue⟩ : Card)), (1, ⟨7, Suit.green⟩), (2, ⟨8, Suit.blue⟩)].map Prod.snd ∧
      t.starting_suit = some Suit.blue ∧
      hc.suit = Suit.blue :=
  trick_highest_card_invariant
    [(0, ⟨3, Suit.blue⟩), (1, ⟨7, Suit.green⟩), (2, ⟨8, Suit.blue⟩)]
    (by decide) (by decide)

/-! ## Claim C9: task-selection rotation -/

/-- C9: for every game state in which the unchosen pool holds `k` cards
and each invocation of the external selection step removes exactly one
card, the rotation starts at the given seat (the Commander's index),
visits seats in increasing order wrapping modulo the player count,
performs exactly `k` selections, and terminates with the pool empty. -/
theorem assign_task_cards_rotation (n : Nat) (chooser : List Card → Nat) :
    ∀ (pool : List Card) (start : Nat), start < n →
      (assignTaskCards n chooser start pool).1 =
        (List.range pool.length).map (fun i => (start + i) % n) ∧
      (assignTaskCards n chooser start pool).1.length = pool.length ∧
      (assignTaskCards n chooser start pool).2 = [] := by
  have hmain : ∀ (len : Nat) (pool : List Card), pool.length = len →
      ∀ start : Nat, start < n →
        (assignTaskCards n chooser start pool).1 =
          (List.range pool.length).map (fun i => (start + i) % n) ∧
        (assignTaskCards n chooser start pool).2 = [] := by
    intro len
    induction len with
    | zero =>
      intro pool hlen start _
      have hp : pool = [] := List.length_eq_zero.mp hlen
      subst hp
      simp [assignTaskCards]
    | succ m ih =>
      intro pool hlen start hstart
      obtain ⟨c, rest, rfl⟩ : ∃ c rest, pool = c :: rest := by
        cases pool with
        | nil => simp at hlen
        | cons c rest => exact ⟨c, rest, rfl⟩
      have hn : 0 < n := Nat.pos_of_ne_zero (by intro h; subst h; omega)
      have hidx : min (chooser (c :: rest)) ((c :: rest).length - 1) < (c :: rest).length :=
        Nat.lt_of_le_of_lt (Nat.min_le_right _ _) (by simp)
      have hlen' : ((c :: rest).eraseIdx
          (min (chooser (c :: rest)) ((c :: rest).length - 1))).length = m := by
        rw [List.length_eraseIdx_of_lt hidx]
        omega
      have hrec := ih _ hlen' ((start + 1) % n) (Nat.mod_lt _ hn)
      have hunfold : assignTaskCards n chooser start (c :: rest) =
          (start :: (assignTaskCards n chooser ((start + 1) % n)
            ((c :: rest).eraseIdx (min (chooser (c :: rest)) ((c :: rest).length - 1)))).1,
           (assignTaskCards n chooser ((start + 1) % n)
            ((c :: rest).eraseIdx (min (chooser (c :: rest)) ((c :: rest).length - 1)))).2) := by
        rw [assignTaskCards]
      constructor
      · rw [hunfold]
        simp only [hrec.1, hlen']
        have hrange : List.range (c :: rest).length = 0 :: (List.range m).map (fun i => i + 1) := by
          rw [show (c :: rest).length = m + 1 by omega, List.range_succ_eq_map]
        rw [hrange]
        simp only [List.map_cons, List.map_map]
        have hhead : (start + 0) % n = start := by
          rw [Nat.add_zero]
          exact Nat.mod_eq_of_lt hstart
        rw [hhead]
        have htail : ∀ i ∈ List.range m,
            ((start + 1) % n + i) % n = ((fun i => (start + i) % n) ∘ fun i => i + 1) i := by
          intro i _
          simp only [Function.comp_apply]
          rw [Nat.mod_add_mod]
          congr 1
          omega
        rw [List.map_congr_left htail]
      · rw [hunfold]
        exact hrec.2
  intro pool start hstart
  obtain ⟨h1, h2⟩ := hmain pool.length pool rfl start hstart
  exact ⟨h1, by rw [h1]; simp, h2⟩

/-- C9 witness: starting at seat 2 of 4 with 3 cards in the pool, the
rotation visits seats 2, 3, 0 and empties the pool. -/
theorem assign_task_cards_rotation_witness :
    (assignTaskCards 4 (fun _ => 0) 2 [⟨1, Suit.blue⟩, ⟨2, Suit.green⟩, ⟨3, Suit.pink⟩]).1 =
      [2, 3, 0] ∧
    (assignTaskCards 4 (fun _ => 0) 2 [⟨1, Suit.blue⟩, ⟨2, Suit.green⟩, ⟨3, Suit.pink⟩]).2 = [] := by
  obtain ⟨h1, _, h3⟩ := assign_task_cards_rotation 4 (fun _ => 0)
    [⟨1, Suit.blue⟩, ⟨2, Suit.green⟩, ⟨3, Suit.pink⟩] 2 (by decide)
  refine ⟨?_, h3⟩
  rw [h1]
  decide

/-! ## Claim C7: even split of the deck -/

/-- C7: in a game with `n ≥ 1` players and a full 40-card deck,
`Game.deal_cards` gives every player exactly `40 / n` cards and leaves
exactly `40 % n` cards undealt in the deck. -/
theorem game_deal_cards_even_split (deck : List Card) (players : List Player) (n : Nat)
    (hn : players.length = n) (h1 : 1 ≤ n) (hdeck : deck.length = 40) :
    ∃ ps' d', Game.deal_cards deck players n = Except.ok (ps', d') ∧
      ps'.length = n ∧
      (∀ q ∈ ps', q.hand.length = 40 / n) ∧
      d'.length = 40 % n := by
  have hnz : ¬ n = 0 := by omega
  have hdm := Nat.div_add_mod 40 n
  have hle : players.length * (CardDeck.num_cards / n) ≤ deck.length := by
    rw [hn, hdeck]
    show n * (40 / n) ≤ 40
    omega
  obtain ⟨ps', d', hdtp, hlen, hd', hhands, _⟩ :=
    dealToPlayers_spec (CardDeck.num_cards / n) players deck hle
  refine ⟨ps', d', ?_, by rw [hlen, hn], ?_, ?_⟩
  · simp only [Game.deal_cards, hnz, if_false]
    exact hdtp
  · intro q hq
    exact hhands q hq
  · rw [hd', List.length_take, hdeck, hn]
    show min (40 - n * (40 / n)) 40 = 40 % n
    omega

/-- C7 witness: 4 players and the full 40-card deck: each player gets
`40 / 4 = 10` cards and `40 % 4 = 0` cards stay in the deck. -/
theorem game_deal_cards_even_split_witness :
    ∃ ps' d', Game.deal_cards cardDeckCards (List.replicate 4 Player.new) 4 =
        Except.ok (ps', d') ∧
      ps'.length = 4 ∧
      (∀ q ∈ ps', q.hand.length = 40 / 4) ∧
      d'.length = 40 % 4 :=
  game_deal_cards_even_split cardDeckCards (List.replicate 4 Player.new) 4
    (by decide) (by decide) (by decide)

/-! ## Claim C8: exactly one Commander -/

theorem count_flatten_eq_sum (l : List (List Card)) (a : Card) :
    l.flatten.count a = (l.map (fun x => x.count a)).sum := by
  induction l with
  | nil => simp
  | cons x xs ih => simp [List.count_append, ih]

/-- C8 counterexample: the claim holds for any player count, but with 3
players the single undealt remainder card can be the Rocket 4 itself:
dealing this valid shuffled 40-card deck to 3 players leaves the
Rocket 4 in the deck, no player's starting hand contains it, and
`Game.commander` returns no player. -/
theorem c8_counterexample :
    List.Perm (rocketFour :: cardDeckCards.erase rocketFour) cardDeckCards ∧
    cardDeckCards.count rocketFour = 1 ∧
    (Game.deal_cards (rocketFour :: cardDeckCards.erase rocketFour)
        (List.replicate 3 Player.new) 3).map
      (fun pr => (pr.1.countP (fun q => Player.is_commander q),
        (Game.commander pr.1).isSome, pr.2)) = Except.ok (0, false, [rocketFour]) := by
  refine ⟨?_, by decide, by decide⟩
  have hmem : rocketFour ∈ cardDeckCards := by decide
  exact (List.perm_cons_erase hmem).symm

/-- C8 (amended): every valid 40-card deck contains exactly one
Rocket 4; when the player count `n ≥ 1` divides 40 evenly
(`40 % n = 0`, e.g. 4 or 5 players), `Game.deal_cards` deals the whole
deck, exactly one player's starting hand contains the Rocket 4, and
`Game.commander` returns the first (and only) player in seating order
whose `is_commander` is true.  (For player counts that leave a
remainder, the Rocket 4 can stay in the deck — see the
counterexample.) -/
theorem game_commander_unique (deck : List Card) (players : List Player) (n : Nat)
    (hperm : List.Perm deck cardDeckCards) (hn : players.length = n)
    (h1 : 1 ≤ n) (hdvd : 40 % n = 0) :
    deck.count rocketFour = 1 ∧
    ∃ ps' d', Game.deal_cards deck players n = Except.ok (ps', d') ∧
      ps'.countP (fun q => Player.is_commander q) = 1 ∧
      ∃ p, Game.commander ps' = some p ∧ Player.is_commander p = true := by
  have hnz : ¬ n = 0 := by omega
  have hdm := Nat.div_add_mod 40 n
  have hcount : deck.count rocketFour = 1 := by
    rw [hperm.count_eq]
    decide
  have hlen40 : deck.length = 40 := by
    rw [hperm.length_eq]
    decide
  have hfull : players.length * (CardDeck.num_cards / n) = deck.length := by
    rw [hn, hlen40]
    show n * (40 / n) = 40
    omega
  obtain ⟨ps', d', hdtp, hlen, hd', hhands, hpermh⟩ :=
    dealToPlayers_spec (CardDeck.num_cards / n) players deck (le_of_eq hfull)
  have hzero : deck.length - players.length * (CardDeck.num_cards / n) = 0 := by
    omega
  rw [hzero, List.drop_zero] at hpermh
  have hsum : (ps'.map (fun q => q.cardsList.count rocketFour)).sum = 1 := by
    have h2 : (ps'.map (fun q => q.cardsList)).flatten.count rocketFour = 1 := by
      rw [hpermh.count_eq, hcount]
    rw [count_flatten_eq_sum, List.map_map] at h2
    exact h2
  have hcp : ps'.countP (fun q => q.cardsList.count rocketFour != 0) = 1 := by
    have h3 := sum_eq_one_countP _ hsum
    rwa [List.countP_map] at h3
  have hpred : ∀ q ∈ ps',
      ((q.cardsList.count rocketFour != 0) = true ↔ Player.is_commander q = true) := by
    intro q _
    show ((q.cardsList.count rocketFour != 0) = true ↔ q.cardsList.contains rocketFour = true)
    by_cases h : rocketFour ∈ q.cardsList
    · have hpos : 0 < q.cardsList.count rocketFour := List.count_pos_iff.mpr h
      simp [h, Nat.pos_iff_ne_zero.mp hpos]
    · have hz : q.cardsList.count rocketFour = 0 := by
        rw [List.count_eq_zero]
        exact h
      simp [hz, h]
  have hcp2 : ps'.countP (fun q => Player.is_commander q) = 1 := by
    rw [← List.countP_congr hpred]
    exact hcp
  refine ⟨hcount, ps', d', ?_, hcp2, ?_⟩
  · simp only [Game.deal_cards, hnz, if_false]
    exact hdtp
  · have hpos : 0 < ps'.countP (fun q => Player.is_commander q) := by omega
    obtain ⟨q, hq, hqc⟩ := List.countP_pos_iff.mp hpos
    have hfind : (ps'.find? (fun q => Player.is_commander q)).isSome :=
      List.find?_isSome.mpr ⟨q, hq, hqc⟩
    obtain ⟨p, hp⟩ := Option.isSome_iff_exists.mp hfind
    exact ⟨p, hp, List.find?_some hp⟩

/-- C8 witness: the unshuffled full deck dealt to 4 players: exactly one
commander exists and `Game.commander` finds that player. -/
theorem game_commander_unique_witness :
    cardDeckCards.count rocketFour = 1 ∧
    ∃ ps' d', Game.deal_cards cardDeckCards (List.replicate 4 Player.new) 4 =
        Except.ok (ps', d') ∧
      ps'.countP (fun q => Player.is_commander q) = 1 ∧
      ∃ p, Game.commander ps' = some p ∧ Player.is_commander p = true :=
  game_commander_unique cardDeckCards (List.replicate 4 Player.new) 4
    (List.Perm.refl cardDeckCards) (by decide) (by decide) (by decide)
